import Mathlib

/-!
Verification of the JustBYOK local persistence layer against its
natural-language specification.

The definitions below are a shallow embedding of the TypeScript source:
  * the entity types from `src/lib/types.ts`,
  * the IndexedDB wrapper `chatDB` (`src/unnamed/part_007`),
  * the chat-store hook operations (`src/unnamed/part_000` and the full
    hook listing embedded in `src/README.md`, including
    `generateAIResponse`),
  * the SSE-style stream framing of the `simplechat` route
    (`src/unnamed/part_006`),
  * the `storage` key-value wrapper (`src/lib/storage.ts`).

JavaScript `Date` values are modelled as natural-number timestamps; each
operation that calls `new Date()` takes the current time as an explicit
`now` parameter.  JavaScript strings are modelled by Lean `String`
(faithful for the ASCII data the claims exercise).  Randomly generated
ids (`generateId`) are passed in as explicit parameters, since the model
is deterministic.
-/

set_option maxRecDepth 2000

namespace JustBYOK

/-! ### Character-list helpers modelling JS string primitives -/

/-- Model of JS `String.prototype.startsWith` support: `hasPfx p l` is
true when `p` is an initial segment of `l`. -/
def hasPfx : List Char → List Char → Bool
  | [], _ => true
  | _ :: _, [] => false
  | p :: ps, c :: cs => p == c && hasPfx ps cs

/-- Drops the given initial segment, returning `none` when it is not an
initial segment. -/
def dropPfx : List Char → List Char → Option (List Char)
  | [], l => some l
  | _ :: _, [] => none
  | p :: ps, c :: cs => if p == c then dropPfx ps cs else none

/-- Model of JS `chunk.split('\n')`: splits at every newline, keeping
empty pieces. -/
def splitNl : List Char → List (List Char)
  | [] => [[]]
  | c :: cs =>
    if c = '\n' then [] :: splitNl cs
    else
      match splitNl cs with
      | [] => [[c]]
      | h :: t => (c :: h) :: t

/-- Model of JS `String.prototype.trim` on a character list. -/
def jsTrim (l : List Char) : List Char :=
  ((l.dropWhile Char.isWhitespace).reverse.dropWhile Char.isWhitespace).reverse

/-- Model of JS `String.prototype.endsWith`. -/
def jsEndsWith (s suffix : String) : Bool :=
  hasPfx suffix.toList.reverse s.toList.reverse

/-- Model of JS `String.prototype.trim` on a string. -/
def jsTrimStr (s : String) : String :=
  ⟨jsTrim s.toList⟩

/-- ASCII lower-casing of one character (the fragment of JS
`toLowerCase` the data model exercises). -/
def lowChar (c : Char) : Char :=
  if 'A' ≤ c ∧ c ≤ 'Z' then Char.ofNat (c.toNat + 32) else c

/-- Model of JS `String.prototype.toLowerCase` (ASCII fragment). -/
def jsToLower (s : String) : String :=
  ⟨s.toList.map lowChar⟩

/-! ### Data model (`src/lib/types.ts`) -/

/-- `Message` from `src/lib/types.ts`.  The optional `isPinned` flag is
modelled as a `Bool` (JS truthiness identifies `undefined` with
`false`). -/
structure Message where
  id : String
  content : String
  role : String
  createdAt : Nat
  isPinned : Bool
deriving Repr, DecidableEq

/-- `Folder` from `src/lib/types.ts` (the transient UI-only `isEditing`
flag is omitted; it is never persisted nor read by the operations under
verification). -/
structure Folder where
  id : String
  name : String
  createdAt : Nat
  updatedAt : Nat
  chatIds : List String
deriving Repr, DecidableEq

/-- `Chat` from `src/lib/types.ts`.  Optional fields keep their
`Option` shape where the source distinguishes absence (`folderId`,
`pinnedMessageIds`); the optional boolean `favorite` is modelled as
`Bool` via JS truthiness. -/
structure Chat where
  id : String
  title : String
  messages : List Message
  model : String
  createdAt : Nat
  updatedAt : Nat
  folderId : Option String
  favorite : Bool
  pinnedMessageIds : Option (List String)
deriving Repr, DecidableEq

/-- A message as stored in the `messages` object store of IndexedDB:
the in-memory `Message` extended with its owning `chatId`
(`DBMessage` in `src/unnamed/part_007`). -/
structure DBMessage where
  id : String
  chatId : String
  content : String
  role : String
  createdAt : Nat
  isPinned : Bool
deriving Repr, DecidableEq

/-- Attaches a `chatId` to an in-memory message, as the call sites do
with `{ ...message, chatId }`. -/
def Message.withChatId (m : Message) (chatId : String) : DBMessage :=
  ⟨m.id, chatId, m.content, m.role, m.createdAt, m.isPinned⟩

/-! ### The IndexedDB wrapper `chatDB` (`src/unnamed/part_007`)

Each object store is keyed on `id` (`keyPath: 'id'`), so `db.put`
replaces any record with the same id.  A store is modelled as a list in
which a `put` removes any record with the key and appends the new
record. -/

structure ChatDB where
  chats : List Chat
  messages : List DBMessage
  folders : List Folder
deriving Repr, DecidableEq

/-- `db.put` against a store with `keyPath: 'id'`: an upsert keyed on
the record's id. -/
def putByKey {α : Type} (getId : α → String) (x : α) (table : List α) : List α :=
  table.filter (fun y => getId y ≠ getId x) ++ [x]

namespace ChatDB

/-- `chatDB.saveMessage` (part_007 lines 185-213): puts the message and
bumps the owning chat's `updatedAt` without touching its other
fields. -/
def saveMessage (m : DBMessage) (now : Nat) (db : ChatDB) : ChatDB :=
  { db with
    messages := putByKey DBMessage.id m db.messages
    chats := db.chats.map fun c =>
      if c.id == m.chatId then { c with updatedAt := now } else c }

/-- `chatDB.saveChat` (part_007 lines 99-126): bumps `updatedAt`, puts
a copy of the chat with its `messages` field cleared, then saves each
embedded in-memory message (which lacks a `chatId` property) through
`saveMessage`. -/
def saveChat (chat : Chat) (now : Nat) (db : ChatDB) : ChatDB :=
  let chatToSave := { chat with updatedAt := now, messages := [] }
  let db1 := { db with chats := putByKey Chat.id chatToSave db.chats }
  (chat.messages.filter (fun m => m.id ≠ "")).foldl
    (fun acc m => saveMessage (m.withChatId chat.id) now acc) db1

/-- `chatDB.deleteChat` (part_007 lines 162-180): deletes the chat
record, then deletes every message whose `chatId` index matches. -/
def deleteChat (id : String) (db : ChatDB) : ChatDB :=
  { db with
    chats := db.chats.filter (fun c => c.id ≠ id)
    messages := db.messages.filter (fun m => m.chatId ≠ id) }

/-- `chatDB.saveFolder` (part_007 lines 265-272): bumps `updatedAt` and
puts the folder. -/
def saveFolder (folder : Folder) (now : Nat) (db : ChatDB) : ChatDB :=
  { db with folders := putByKey Folder.id { folder with updatedAt := now } db.folders }

end ChatDB

/-! ### Chat-store hook operations (`src/unnamed/part_000`) -/

/-- The per-chat update performed by `togglePinMessage`
(part_000 lines 277-308): toggles `isPinned` on the matching message,
then adds/removes the id in `pinnedMessageIds` according to the toggled
message's new flag (`messages.find(...)?.isPinned`). -/
def togglePinChat (messageId : String) (now : Nat) (chat : Chat) : Chat :=
  let messages := chat.messages.map fun msg =>
    if msg.id == messageId then { msg with isPinned := !msg.isPinned } else msg
  let pinned0 := chat.pinnedMessageIds.getD []
  let pinned :=
    match messages.find? (fun m => m.id == messageId) with
    | some m =>
      if m.isPinned then
        if pinned0.contains messageId then pinned0 else pinned0 ++ [messageId]
      else pinned0.filter (fun id => id ≠ messageId)
    | none => pinned0.filter (fun id => id ≠ messageId)
  { chat with messages := messages, pinnedMessageIds := some pinned, updatedAt := now }

/-- `togglePinMessage` state update (part_000 lines 277-326), restricted
to its effect on the in-memory chat list (the trailing persistence
writes re-save the affected chat and message). -/
def togglePinMessage (chatId messageId : String) (now : Nat) (chats : List Chat) : List Chat :=
  chats.map fun chat =>
    if chat.id == chatId then togglePinChat messageId now chat else chat

/-- The auto-derived chat title
(`message.content.slice(0, 30) + (message.content.length > 30 ? '...' : '')`,
part_000 line 441). -/
def autoTitle (content : String) : String :=
  content.take 30 ++ (if content.length > 30 then "..." else "")

/-- The per-chat update performed by `addMessage`
(part_000 lines 432-446): appends the new message and renames the chat
from the default title on the first user message. -/
def addMessageToChat (role content newId : String) (now : Nat) (chat : Chat) : Chat :=
  let newMessage : Message := ⟨newId, content, role, now, false⟩
  { chat with
    messages := chat.messages ++ [newMessage]
    updatedAt := now
    title :=
      if chat.title == "New Chat" && role == "user" then autoTitle content
      else chat.title }

/-- `addMessage` (part_000 lines 420-467), restricted to its effect on
the in-memory chat list.  The guard models
`if (!chatId || !message?.content) return null` via JS falsiness of the
empty string. -/
def addMessage (chatId role content newId : String) (now : Nat)
    (chats : List Chat) : List Chat :=
  if chatId = "" ∨ content = "" then chats
  else
    chats.map fun chat =>
      if chat.id == chatId then addMessageToChat role content newId now chat else chat

/-- Contiguous-subsequence test on character lists. -/
def containsSeq (sub : List Char) : List Char → Bool
  | [] => sub.isEmpty
  | c :: cs => hasPfx sub (c :: cs) || containsSeq sub cs

/-- Model of JS `String.prototype.includes`: substring containment. -/
def jsIncludes (s sub : String) : Bool :=
  containsSeq sub.toList s.toList

/-- `searchChats` (part_000 lines 561-578): a whitespace-only query
returns the chat list unchanged; otherwise chats are filtered by a
case-insensitive substring match over the title and every message's
content. -/
def searchChats (query : String) (chats : List Chat) : List Chat :=
  if jsTrimStr query = "" then chats
  else
    let lowerQuery := jsToLower query
    chats.filter fun chat =>
      jsIncludes (jsToLower chat.title) lowerQuery ||
        chat.messages.any fun msg => jsIncludes (jsToLower msg.content) lowerQuery

/-- `createNewChat` (part_000 lines 583-592) with the generated id and
clock passed explicitly. -/
def createNewChat (newId : String) (now : Nat) : Chat :=
  ⟨newId, "New Chat", [], "smart", now, now, none, false, none⟩

/-- The combined in-memory/persisted state the hook manages. -/
structure StoreState where
  chats : List Chat
  folders : List Folder
  currentChatId : Option String
  db : ChatDB
deriving Repr, DecidableEq

/-- JS truthiness of the optional `folderId` string
(`chatToDelete?.folderId`). -/
def folderIdTruthy : Option String → Bool
  | some f => f ≠ ""
  | none => false

namespace Store

/-- The current-chat re-selection step of the hook's `deleteChat`
(part_000 lines 371-386): the chat is filtered out of the in-memory
list; if it was current, the first remaining chat becomes current, or a
fresh chat is created and persisted when none remain. -/
def deleteChatReselect (chatId newId : String) (now : Nat) (s : StoreState) :
    List Chat × Option String × ChatDB :=
  if s.currentChatId = some chatId then
    match s.chats.filter (fun c => c.id ≠ chatId) with
    | c :: rest => (c :: rest, some c.id, s.db)
    | [] =>
      ([createNewChat newId now], some (createNewChat newId now).id,
        ChatDB.saveChat (createNewChat newId now) now s.db)
  else (s.chats.filter (fun c => c.id ≠ chatId), s.currentChatId, s.db)

/-- The folder-cleanup step of the hook's `deleteChat` (part_000 lines
388-411): only when the deleted chat's own `folderId` is truthy, the id
is removed from every folder whose `chatIds` lists it, and each such
folder is re-saved. -/
def deleteChatFolderCleanup (chatId : String) (now : Nat)
    (chatToDelete : Option Chat) (folders : List Folder) (db : ChatDB) :
    List Folder × ChatDB :=
  match chatToDelete with
  | some cd =>
    if folderIdTruthy cd.folderId then
      let folders' := folders.map fun f =>
        if f.chatIds.contains chatId then
          { f with
            chatIds := f.chatIds.filter (fun id => id ≠ chatId)
            updatedAt := now }
        else f
      let foldersToUpdate := folders.filter (fun f => f.chatIds.contains chatId)
      let db' := foldersToUpdate.foldl
        (fun acc f =>
          ChatDB.saveFolder
            { f with
              chatIds := f.chatIds.filter (fun id => id ≠ chatId)
              updatedAt := now }
            now acc)
        db
      (folders', db')
    else (folders, db)
  | none => (folders, db)

/-- `deleteChat` of the hook (part_000 lines 367-415): filters the chat
out of the in-memory list, re-selects or creates a chat when the
current chat was deleted (`newId`/`now` stand for the generated id and
clock), removes the id from every folder that lists it when the deleted
chat's own `folderId` is truthy (persisting those folders), and finally
calls `chatDB.deleteChat`. -/
def deleteChat (chatId newId : String) (now : Nat) (s : StoreState) : StoreState :=
  let chatToDelete := s.chats.find? (fun c => c.id == chatId)
  let afterCurrent := deleteChatReselect chatId newId now s
  let fd := deleteChatFolderCleanup chatId now chatToDelete s.folders afterCurrent.2.2
  { chats := afterCurrent.1
    folders := fd.1
    currentChatId := afterCurrent.2.1
    db := ChatDB.deleteChat chatId fd.2 }

end Store

/-! ### Provider stream framing (`src/unnamed/part_006`)

The `simplechat` route emits one line per event:
`data: ` followed by the JSON serialization of
`\x7b type: 'text' | 'error', value: string \x7d`, terminated by a blank
line, and finally the sentinel line `data: [DONE]`. -/

inductive StreamEvent where
  | text (v : String)
  | error (v : String)
deriving Repr, DecidableEq

/-- JSON string escaping as performed by `JSON.stringify` (restricted to
the escapes the claims exercise: quote, backslash, newline, carriage
return, tab). -/
def jsonEscapeChar (c : Char) : List Char :=
  if c = '"' then ['\\', '"']
  else if c = '\\' then ['\\', '\\']
  else if c = '\n' then ['\\', 'n']
  else if c = '\r' then ['\\', 'r']
  else if c = '\t' then ['\\', 't']
  else [c]

def jsonEscape (s : String) : String :=
  ⟨(s.toList.map jsonEscapeChar).flatten⟩

/-- `JSON.stringify(\x7b type, value \x7d)` for the two event shapes the
gateway produces (part_006 lines 131-136 and 153-158). -/
def encodeEvent : StreamEvent → String
  | .text v => "\x7b\"type\":\"text\",\"value\":\"" ++ jsonEscape v ++ "\"\x7d"
  | .error v => "\x7b\"type\":\"error\",\"value\":\"" ++ jsonEscape v ++ "\"\x7d"

/-- One SSE frame as enqueued by the gateway:
`data: <json>\n\n` (part_006 line 136). -/
def eventChunk (e : StreamEvent) : String :=
  "data: " ++ encodeEvent e ++ "\n\n"

/-- The completion sentinel frame `data: [DONE]\n\n` (part_006 line 147). -/
def doneChunk : String :=
  "data: [DONE]\n\n"

/-- Parses a JSON string body (after the opening quote) up to the
closing quote, undoing the escapes of `jsonEscapeChar`; returns the
decoded characters and the remaining input. -/
def parseJsonStr : List Char → Option (List Char × List Char)
  | [] => none
  | '"' :: rest => some ([], rest)
  | '\\' :: c :: rest =>
    (match c with
     | '"' => some '"'
     | '\\' => some '\\'
     | 'n' => some '\n'
     | 'r' => some '\r'
     | 't' => some '\t'
     | _ => none).bind fun d =>
      (parseJsonStr rest).map fun (p : List Char × List Char) => (d :: p.1, p.2)
  | c :: rest =>
    (parseJsonStr rest).map fun (p : List Char × List Char) => (c :: p.1, p.2)

/-- Model of the client's `JSON.parse` + `data.type` dispatch
(README lines 1522-1556), specialized to the gateway's canonical event
serialization.  Inputs that are not a canonical `text`/`error` event
yield `none`; in the client loop this has the same effect as a thrown
parse error (the line is skipped) or an event of unrecognized type
(ignored). -/
def parseEventJson (content : List Char) : Option StreamEvent :=
  match dropPfx ("\x7b\"type\":\"text\",\"value\":\"".toList) content with
  | some rest =>
    match parseJsonStr rest with
    | some (v, r) => if r = ['\x7d'] then some (.text ⟨v⟩) else none
    | none => none
  | none =>
    match dropPfx ("\x7b\"type\":\"error\",\"value\":\"".toList) content with
    | some rest =>
      match parseJsonStr rest with
      | some (v, r) => if r = ['\x7d'] then some (.error ⟨v⟩) else none
      | none => none
    | none => none

/-! ### The generation routine (`src/README.md` lines 1165-1640) -/

/-- The controller state the generation routine touches: the in-memory
chat list, the IndexedDB state, the `isGenerating` flag, and whether an
abort controller is pending. -/
structure GenState where
  chats : List Chat
  db : ChatDB
  isGenerating : Bool
  hasAbortController : Bool
deriving Repr, DecidableEq

/-- Appends a message to the chat with the given id and bumps its
`updatedAt` (the `setChats` updater pattern used throughout the
routine). -/
def appendMessageToChat (chatId : String) (msg : Message) (now : Nat)
    (chats : List Chat) : List Chat :=
  chats.map fun chat =>
    if chat.id == chatId then
      { chat with messages := chat.messages ++ [msg], updatedAt := now }
    else chat

/-- Overwrites the content of the message with id `msgId` inside the
chat with id `chatId` (the streaming `setChats` updater, README lines
1533-1546). -/
def setMsgContent (chatId msgId content : String) (now : Nat)
    (chats : List Chat) : List Chat :=
  chats.map fun chat =>
    if chat.id == chatId then
      { chat with
        messages := chat.messages.map fun msg =>
          if msg.id == msgId then { msg with content := content } else msg
        updatedAt := now }
    else chat

/-- Accumulator of the stream-processing loop: the accumulated
`responseText`, the number of persistence flushes of the assistant
message performed so far during streaming, and the evolving chat/db
state. -/
structure StreamAcc where
  responseText : String
  flushes : Nat
  chats : List Chat
  db : ChatDB
deriving Repr, DecidableEq

/-- Processing of one trimmed `data:` payload (README lines 1514-1575):
the `[DONE]` sentinel is skipped; a `text` event appends its value to
`responseText`, rewrites the assistant message in memory, and flushes
to IndexedDB only when the accumulated length is a multiple of 100; an
`error` event replaces `responseText` with an error string in memory;
an unparsable payload is skipped. -/
def processContent (chatId : String) (assistantMessage : Message) (now : Nat)
    (content : List Char) (acc : StreamAcc) : StreamAcc :=
  if content = "[DONE]".toList then acc
  else
    match parseEventJson content with
    | some (.text v) =>
      let t := acc.responseText ++ v
      let chats := setMsgContent chatId assistantMessage.id t now acc.chats
      if t.length % 100 = 0 then
        { responseText := t, flushes := acc.flushes + 1, chats := chats
          db := ChatDB.saveMessage
            { assistantMessage.withChatId chatId with content := t } now acc.db }
      else { acc with responseText := t, chats := chats }
    | some (.error v) =>
      let t := "Error: " ++ v
      { acc with responseText := t
                 chats := setMsgContent chatId assistantMessage.id t now acc.chats }
    | none => acc

/-- Processing of one line of a chunk (README lines 1511-1514): only
lines starting with `data:` are considered; the payload is the line
after dropping 5 characters and trimming. -/
def processLine (chatId : String) (assistantMessage : Message) (now : Nat)
    (line : List Char) (acc : StreamAcc) : StreamAcc :=
  if hasPfx ("data:".toList) line then
    processContent chatId assistantMessage now (jsTrim (line.drop 5)) acc
  else acc

/-- Processing of one decoded read chunk (README lines 1504-1581): the
chunk is split on newlines **independently of any other chunk** (no
partial-line buffering), lines that trim to empty are dropped, and the
rest are processed in order. -/
def processChunk (chatId : String) (assistantMessage : Message) (now : Nat)
    (chunk : String) (acc : StreamAcc) : StreamAcc :=
  let dataLines := (splitNl chunk.toList).filter fun l => !(jsTrim l).isEmpty
  dataLines.foldl (fun a l => processLine chatId assistantMessage now l a) acc

/-- The reader loop over the delivered chunks (README lines 1493-1581). -/
def runStream (chatId : String) (assistantMessage : Message) (now : Nat)
    (chunks : List String) (acc : StreamAcc) : StreamAcc :=
  chunks.foldl (fun a ch => processChunk chatId assistantMessage now ch a) acc

/-- Behaviour of the network stream: either it delivers its chunks and
completes, or the user aborts after a prefix of chunks (the next read
then raises `AbortError`). -/
inductive StreamOutcome where
  | success (chunks : List String)
  | abortedAfter (chunks : List String)
deriving Repr, DecidableEq

/-- The synthesized system message content for a missing API key
(README line 1230). -/
def keyErrorContent (model : String) : String :=
  "API key required for " ++ model ++ ". Please add your API key in settings."

/-- The synthesized system message content for an empty payload
(README line 1278). -/
def noValidMessagesContent : String :=
  "Error: No valid messages to send. Please try again or refresh the page."

/-- `generateAIResponse` (README lines 1165-1629), modelled over the
branches the claims exercise: the missing-key fail-soft branch, the
empty-payload fail-soft branch, and the streaming path with either a
completed or an aborted stream.  Console logging, the request payload
assembly, and the mid-flight `latestChat` re-read (a no-op in this
sequential model, where no concurrent mutation interleaves) are
elided.  The generated message ids and the clock are explicit
parameters.  The returned `Nat` counts the persistence flushes of the
assistant message performed by the streaming loop and the final
end-of-stream flush (the initial write of the empty placeholder is part
of the state, not of this count). -/
def generateAIResponse (chatId model : String) (messages : List Message)
    (apiKey sysMsgId assistantMsgId : String) (now : Nat)
    (outcome : StreamOutcome) (s : GenState) : GenState × Nat :=
  if apiKey = "" then
    let errorMessage : Message := ⟨sysMsgId, keyErrorContent model, "system", now, false⟩
    ({ s with chats := appendMessageToChat chatId errorMessage now s.chats
              db := ChatDB.saveMessage (errorMessage.withChatId chatId) now s.db }, 0)
  else
    let existingMessages := messages.filter fun msg =>
      msg.role != "assistant" || jsTrimStr msg.content != ""
    let apiMessages := existingMessages.map fun msg => (msg.role, msg.content)
    if apiMessages.length = 0 then
      let errorMessage : Message := ⟨sysMsgId, noValidMessagesContent, "system", now, false⟩
      ({ s with chats := appendMessageToChat chatId errorMessage now s.chats
                db := ChatDB.saveMessage (errorMessage.withChatId chatId) now s.db }, 0)
    else
      let assistantMessage : Message := ⟨assistantMsgId, "", "assistant", now, false⟩
      let s1 : GenState :=
        { s with chats := appendMessageToChat chatId assistantMessage now s.chats
                 db := ChatDB.saveMessage (assistantMessage.withChatId chatId) now s.db }
      let s2 : GenState := { s1 with isGenerating := true, hasAbortController := true }
      match outcome with
      | .success chunks =>
        let acc := runStream chatId assistantMessage now chunks
          ⟨"", 0, s2.chats, s2.db⟩
        let db' := ChatDB.saveMessage
          { assistantMessage.withChatId chatId with content := acc.responseText } now acc.db
        ({ chats := acc.chats, db := db', isGenerating := false,
           hasAbortController := false }, acc.flushes + 1)
      | .abortedAfter chunks =>
        let acc := runStream chatId assistantMessage now chunks
          ⟨"", 0, s2.chats, s2.db⟩
        ({ chats := acc.chats, db := acc.db, isGenerating := false,
           hasAbortController := false }, acc.flushes)

/-! ### The key-value storage wrapper (`src/lib/storage.ts`)

`storage.get` calls the host's `JSON.parse` with a reviver that turns
every string-valued field whose name ends in `At` into a `Date`.  The
host parser is an explicit parameter (`parse`); a thrown parse error is
modelled as `none`.  JSON values are modelled by `JsonValue`, with an
extra constructor for revived `Date` values that remembers the source
string. -/

inductive JsonValue where
  | null
  | bool (b : Bool)
  | num (n : Int)
  | str (s : String)
  | arr (elems : List JsonValue)
  | obj (fields : List (String × JsonValue))
  | date (iso : String)

mutual

/-- Bottom-up application of the reviver of `storage.get`
(`src/lib/storage.ts` lines 19-25): children are revived first, and an
object field whose key ends in `At` and whose (revived) value is a
string becomes a date. -/
def revive : JsonValue → JsonValue
  | .null => .null
  | .bool b => .bool b
  | .num n => .num n
  | .str s => .str s
  | .date s => .date s
  | .arr es => .arr (reviveList es)
  | .obj fs => .obj (reviveFields fs)

def reviveList : List JsonValue → List JsonValue
  | [] => []
  | v :: vs => revive v :: reviveList vs

def reviveFields : List (String × JsonValue) → List (String × JsonValue)
  | [] => []
  | (k, v) :: fs =>
    let v1 := revive v
    let v2 :=
      if jsEndsWith k "At" then
        match v1 with
        | .str s => .date s
        | w => w
      else v1
    (k, v2) :: reviveFields fs

end

/-- The fixed namespace prefix of the storage wrapper. -/
def APP_PREFIX : String := "APP_"

/-- `storage.get` (`src/lib/storage.ts` lines 15-30): reads the
prefixed key; a missing or empty raw value yields the default; a parse
failure is caught, logged and yields the default; a successful parse is
revived. -/
def storageGet (parse : String → Option JsonValue)
    (store : String → Option String) (key : String)
    (defaultValue : JsonValue) : JsonValue :=
  match store (APP_PREFIX ++ key) with
  | none => defaultValue
  | some rawValue =>
    if rawValue = "" then defaultValue
    else
      match parse rawValue with
      | none => defaultValue
      | some j => revive j

/-! ### Spec-side predicates (from the claims' wording) -/

/-- The §3 invariant as the claims state it: the chat's
`pinnedMessageIds` (absent treated as empty) equals, as a set, the set
of ids of the chat's messages whose `isPinned` flag is true. -/
def pinConsistent (chat : Chat) : Prop :=
  (∀ id ∈ chat.pinnedMessageIds.getD [],
      id ∈ (chat.messages.filter (fun m => m.isPinned)).map Message.id) ∧
  (∀ id ∈ (chat.messages.filter (fun m => m.isPinned)).map Message.id,
      id ∈ chat.pinnedMessageIds.getD [])

instance (chat : Chat) : Decidable (pinConsistent chat) := by
  unfold pinConsistent; infer_instance

/-- The ordering the claim C8 demands of the unfiltered result:
favorites first, then `updatedAt` descending within each group.
Modelled from the spec's words, for comparison with `searchChats`. -/
def specFavoriteRecencyOrder (l : List Chat) : Prop :=
  l.Pairwise fun a b =>
    (a.favorite = false → b.favorite = false) ∧
    (a.favorite = b.favorite → b.updatedAt ≤ a.updatedAt)

instance (l : List Chat) : Decidable (specFavoriteRecencyOrder l) := by
  unfold specFavoriteRecencyOrder; infer_instance

/-- A string is wire-safe when none of its characters needs a JSON
escape in this model; `JSON.stringify` then serializes it verbatim. -/
def PlainVal (v : String) : Prop :=
  ∀ c ∈ v.toList, c ≠ '"' ∧ c ≠ '\\' ∧ c ≠ '\n' ∧ c ≠ '\r' ∧ c ≠ '\t'

instance (v : String) : Decidable (PlainVal v) := by
  unfold PlainVal; infer_instance

/-- In-order concatenation of a list of strings (the reference value a
token stream should accumulate to). -/
def concatAll : List String → String
  | [] => ""
  | s :: rest => s ++ concatAll rest

/-! ## Helper lemmas -/

theorem filter_putByKey_self {α : Type} (getId : α → String) (x : α) (l : List α) :
    (putByKey getId x l).filter (fun y => getId y = getId x) = [x] := by
  unfold putByKey
  induction l with
  | nil => simp
  | cons a t ih =>
    by_cases h : getId a = getId x <;> simp [h, ih]

theorem filter_map_of_pred_inv {α : Type} (g : α → α) (p : α → Bool)
    (h : ∀ a, p (g a) = p a) (l : List α) :
    (l.map g).filter p = (l.filter p).map g := by
  induction l with
  | nil => rfl
  | cons a t ih => cases hpa : p a <;> simp [h a, hpa, ih]

theorem chat_eta_updatedAt (c : Chat) (t : Nat) (h : c.updatedAt = t) :
    { c with updatedAt := t } = c := by
  cases c; simp_all

theorem saveMessage_preserves_chat_filter (m : DBMessage) (t : Nat) (db : ChatDB)
    (x : String) (y : Chat) (hy : y.updatedAt = t)
    (h : db.chats.filter (fun c => c.id = x) = [y]) :
    (ChatDB.saveMessage m t db).chats.filter (fun c => c.id = x) = [y] := by
  show ((db.chats.map fun c =>
      if c.id == m.chatId then { c with updatedAt := t } else c).filter
      (fun c => c.id = x)) = [y]
  rw [filter_map_of_pred_inv]
  · rw [h]
    by_cases hyc : y.id == m.chatId
    · simp only [List.map_cons, List.map_nil, hyc, if_true]
      rw [chat_eta_updatedAt y t hy]
    · simp only [beq_iff_eq] at hyc
      simp [hyc]
  · intro a
    by_cases ha : a.id == m.chatId <;> simp [ha]

theorem foldl_saveMessage_preserves_chat_filter (ms : List DBMessage) (t : Nat)
    (db : ChatDB) (x : String) (y : Chat) (hy : y.updatedAt = t)
    (h : db.chats.filter (fun c => c.id = x) = [y]) :
    ((ms.foldl (fun acc m => ChatDB.saveMessage m t acc) db).chats.filter
      (fun c => c.id = x)) = [y] := by
  induction ms generalizing db with
  | nil => exact h
  | cons m ms ih =>
    exact ih _ (saveMessage_preserves_chat_filter m t db x y hy h)

theorem foldl_saveMsg_of_preserves_chat_filter {β : Type} (ms : List β)
    (f : β → DBMessage) (t : Nat) (db : ChatDB) (x : String) (y : Chat)
    (hy : y.updatedAt = t)
    (h : db.chats.filter (fun c => c.id = x) = [y]) :
    ((ms.foldl (fun acc m => ChatDB.saveMessage (f m) t acc) db).chats.filter
      (fun c => c.id = x)) = [y] := by
  induction ms generalizing db with
  | nil => exact h
  | cons m ms ih =>
    exact ih _ (saveMessage_preserves_chat_filter (f m) t db x y hy h)

theorem reviveFields_mem_date (fs : List (String × JsonValue)) (k s : String)
    (hmem : (k, JsonValue.str s) ∈ fs) (hk : jsEndsWith k "At" = true) :
    (k, JsonValue.date s) ∈ reviveFields fs := by
  induction fs with
  | nil => cases hmem
  | cons p t ih =>
    obtain ⟨a, b⟩ := p
    rcases List.mem_cons.mp hmem with h | h
    · obtain ⟨rfl, rfl⟩ := Prod.mk.injEq .. ▸ h
      simp [reviveFields, revive, hk]
    · exact List.mem_cons_of_mem _ (ih h)

/-! ## Claims -/

/-- Claim C10: repository saves are last-write-wins upserts keyed on
`id`.  Saving `m1` then `m2` with `m2.id = m1.id` leaves exactly one
stored message under that id, holding `m2`'s data; likewise for
`saveChat` (whose stored copy has its `messages` field cleared and its
`updatedAt` bumped) and `saveFolder` (stored with bumped `updatedAt`).
In particular an id collision between distinct entities silently
replaces the earlier record. -/
theorem claim_C10 (m1 m2 : DBMessage) (t1 t2 : Nat) (dbm : ChatDB)
    (hm : m2.id = m1.id)
    (c1 c2 : Chat) (dbc : ChatDB) (hc : c2.id = c1.id)
    (f1 f2 : Folder) (dbf : ChatDB) (hf : f2.id = f1.id) :
    ((ChatDB.saveMessage m2 t2 (ChatDB.saveMessage m1 t1 dbm)).messages.filter
      (fun m => m.id = m1.id)) = [m2] ∧
    ((ChatDB.saveChat c2 t2 (ChatDB.saveChat c1 t1 dbc)).chats.filter
      (fun c => c.id = c1.id)) = [{ c2 with updatedAt := t2, messages := [] }] ∧
    ((ChatDB.saveFolder f2 t2 (ChatDB.saveFolder f1 t1 dbf)).folders.filter
      (fun f => f.id = f1.id)) = [{ f2 with updatedAt := t2 }] := by
  refine ⟨?_, ?_, ?_⟩
  · rw [← hm]
    exact filter_putByKey_self DBMessage.id m2 _
  · show ((((ChatDB.saveChat c1 t1 dbc).chats |> putByKey Chat.id
        { c2 with updatedAt := t2, messages := [] }) |>
        (fun l => (c2.messages.filter (fun m => m.id ≠ "")).foldl
          (fun acc m =>
            ChatDB.saveMessage (m.withChatId c2.id) t2 acc)
          { ChatDB.saveChat c1 t1 dbc with chats := l })).chats.filter
        (fun c => c.id = c1.id)) = [{ c2 with updatedAt := t2, messages := [] }]
    rw [← hc]
    exact foldl_saveMsg_of_preserves_chat_filter _ _ t2 _ _ _ rfl
      (filter_putByKey_self Chat.id { c2 with updatedAt := t2, messages := [] } _)
  · rw [← hf]
    exact filter_putByKey_self Folder.id { f2 with updatedAt := t2 } _

theorem claim_C10_witness :
    ((ChatDB.saveMessage ⟨"i", "c", "second", "user", 1, false⟩ 1
        (ChatDB.saveMessage ⟨"i", "c", "first", "user", 0, false⟩ 0
          ⟨[], [], []⟩)).messages.filter
      (fun m => m.id = "i")) = [⟨"i", "c", "second", "user", 1, false⟩] :=
  (claim_C10 ⟨"i", "c", "first", "user", 0, false⟩
    ⟨"i", "c", "second", "user", 1, false⟩ 0 1 ⟨[], [], []⟩ rfl
    ⟨"x", "t", [], "smart", 0, 0, none, false, none⟩
    ⟨"x", "t2", [], "smart", 0, 0, none, false, none⟩ ⟨[], [], []⟩ rfl
    ⟨"f", "F", 0, 0, []⟩ ⟨"f", "G", 0, 0, []⟩ ⟨[], [], []⟩ rfl).1

/-- Claim C9: `storage.get` never throws: a missing raw value yields
the default, an unparsable raw value yields the default (the failure is
only logged), and a successful parse is revived so that every object
field whose name ends in `At` and holds a string becomes a date
value. -/
theorem claim_C9 (parse : String → Option JsonValue)
    (store : String → Option String) (key : String) (d : JsonValue) :
    (store (APP_PREFIX ++ key) = none → storageGet parse store key d = d) ∧
    (∀ raw, store (APP_PREFIX ++ key) = some raw → parse raw = none →
      storageGet parse store key d = d) ∧
    (∀ raw j, store (APP_PREFIX ++ key) = some raw → raw ≠ "" →
      parse raw = some j → storageGet parse store key d = revive j) ∧
    (∀ fs, revive (.obj fs) = .obj (reviveFields fs)) ∧
    (∀ fs k s, (k, JsonValue.str s) ∈ fs → jsEndsWith k "At" = true →
      (k, JsonValue.date s) ∈ reviveFields fs) := by
  refine ⟨?_, ?_, ?_, fun _ => rfl, reviveFields_mem_date⟩
  · intro h
    simp [storageGet, h]
  · intro raw hs hp
    by_cases hr : raw = "" <;> simp [storageGet, hs, hp, hr]
  · intro raw j hs hr hp
    simp [storageGet, hs, hr, hp]

theorem claim_C9_witness :
    storageGet (fun r => if r = "raw" then
        some (.obj [("updatedAt", .str "2024-01-02")]) else none)
      (fun k => if k = "APP_settings" then some "raw" else none)
      "settings" .null =
      .obj [("updatedAt", JsonValue.date "2024-01-02")] := by
  have h := (claim_C9 (fun r => if r = "raw" then
      some (.obj [("updatedAt", .str "2024-01-02")]) else none)
    (fun k => if k = "APP_settings" then some "raw" else none)
    "settings" .null).2.2.1 "raw"
    (.obj [("updatedAt", .str "2024-01-02")]) rfl (by decide) rfl
  rw [h]
  simp [revive, reviveFields]
  decide

theorem addMessageToChat_title_of_ne (c : Chat) (role content nid : String)
    (nn : Nat) (h : (c.title == "New Chat") = false) :
    (addMessageToChat role content nid nn c).title = c.title := by
  simp [addMessageToChat, h]

theorem addMessage_keeps_title (chatId : String) (T : String)
    (hT : (T == "New Chat") = false) (role content nid : String) (nn : Nat)
    (lst : List Chat) (hlst : ∀ c ∈ lst, c.title = T) :
    ∀ c ∈ addMessage chatId role content nid nn lst, c.title = T := by
  intro c hc
  unfold addMessage at hc
  split at hc
  · exact hlst c hc
  · obtain ⟨c0, hc0, rfl⟩ := List.mem_map.mp hc
    by_cases h : c0.id == chatId
    · rw [if_pos h]
      rw [addMessageToChat_title_of_ne c0 _ _ _ _ (by rw [hlst c0 hc0]; exact hT)]
      exact hlst c0 hc0
    · rw [if_neg h]
      exact hlst c0 hc0

/-- Claim C7: for a chat with the default title and zero messages,
adding the user message "Hello world, this is a long message" sets the
title to the first 30 characters of the content followed by "...", and
the title does not change under any sequence of further `addMessage`
calls on that chat. -/
theorem claim_C7 (chat : Chat) (id1 : String) (n1 : Nat)
    (htitle : chat.title = "New Chat") (_hmsgs : chat.messages = [])
    (hid : chat.id ≠ "") :
    (∀ c ∈ addMessage chat.id "user" "Hello world, this is a long message" id1 n1 [chat],
      c.title = "Hello world, this is a long me...") ∧
    (∀ calls : List (String × String × String × Nat),
      ∀ c ∈ calls.foldl
          (fun cs q => addMessage chat.id q.1 q.2.1 q.2.2.1 q.2.2.2 cs)
          (addMessage chat.id "user" "Hello world, this is a long message" id1 n1 [chat]),
        c.title = "Hello world, this is a long me...") := by
  have hfirst : ∀ c ∈ addMessage chat.id "user"
      "Hello world, this is a long message" id1 n1 [chat],
      c.title = "Hello world, this is a long me..." := by
    intro c hc
    unfold addMessage at hc
    rw [if_neg (by simp [hid])] at hc
    simp only [List.map_cons, List.map_nil, beq_self_eq_true, if_true] at hc
    rw [List.mem_singleton] at hc
    subst hc
    simp only [addMessageToChat, htitle]
    decide
  refine ⟨hfirst, ?_⟩
  intro calls
  have hfold : ∀ (cs : List (String × String × String × Nat)) (lst : List Chat),
      (∀ c ∈ lst, c.title = "Hello world, this is a long me...") →
      ∀ c ∈ cs.foldl
          (fun cs q => addMessage chat.id q.1 q.2.1 q.2.2.1 q.2.2.2 cs) lst,
        c.title = "Hello world, this is a long me..." := by
    intro cs
    induction cs with
    | nil => intro lst h c hc; exact h c hc
    | cons q rest ih =>
      intro lst h c hc
      exact ih _
        (addMessage_keeps_title chat.id _ (by decide) q.1 q.2.1 q.2.2.1 q.2.2.2 lst h)
        c hc
  exact hfold calls _ hfirst

theorem saveMessage_folders (m : DBMessage) (t : Nat) (db : ChatDB) :
    (ChatDB.saveMessage m t db).folders = db.folders := rfl

theorem saveChat_folders (c : Chat) (t : Nat) (db : ChatDB) :
    (ChatDB.saveChat c t db).folders = db.folders := by
  unfold ChatDB.saveChat
  have hfold : ∀ (ms : List Message) (d : ChatDB),
      ((ms.foldl (fun acc m =>
        ChatDB.saveMessage (m.withChatId c.id) t acc) d)).folders = d.folders := by
    intro ms
    induction ms with
    | nil => intro d; rfl
    | cons m ms ih =>
      intro d
      rw [List.foldl_cons, ih]
      rfl
  exact hfold _ _

theorem deleteChatReselect_db_folders (chatId newId : String) (now : Nat)
    (s : StoreState) :
    (Store.deleteChatReselect chatId newId now s).2.2.folders = s.db.folders := by
  unfold Store.deleteChatReselect
  split
  · split
    · rfl
    · exact saveChat_folders _ _ _
  · rfl


theorem foldl_saveFolder_clean (chatId : String) (now : Nat) :
    ∀ (us : List Folder) (db : ChatDB),
      (∀ g ∈ db.folders, chatId ∈ g.chatIds → g.id ∈ us.map Folder.id) →
      ∀ g ∈ (us.foldl (fun acc f =>
          ChatDB.saveFolder
            { f with
              chatIds := f.chatIds.filter (fun id => id ≠ chatId)
              updatedAt := now }
            now acc) db).folders,
        chatId ∉ g.chatIds := by
  intro us
  induction us with
  | nil =>
    intro db hinv g hg hmem
    have := hinv g hg hmem
    simp at this
  | cons u us ih =>
    intro db hinv
    rw [List.foldl_cons]
    apply ih
    intro g hg hmem
    simp only [ChatDB.saveFolder, putByKey] at hg
    rcases List.mem_append.mp hg with h | h
    · obtain ⟨hgdb, hne⟩ := List.mem_filter.mp h
      have hin := hinv g hgdb hmem
      simp only [List.map_cons, List.mem_cons] at hin
      rcases hin with h1 | h1
      · exfalso
        apply (by simpa using hne : g.id ≠ u.id)
        simpa using h1
      · simpa using h1
    · exfalso
      rw [List.mem_singleton] at h
      subst h
      simp only at hmem
      have h2 := (List.mem_filter.mp hmem).2
      simp at h2


theorem mem_pinnedIds {msgs : List Message} {i : String} :
    i ∈ (msgs.filter (fun m => m.isPinned)).map Message.id ↔
      ∃ m, m ∈ msgs ∧ m.isPinned = true ∧ m.id = i := by
  simp [List.mem_map, List.mem_filter, and_assoc]

theorem togglePinChat_ids (mid : String) (now : Nat) (chat : Chat) :
    (togglePinChat mid now chat).messages.map Message.id =
      chat.messages.map Message.id := by
  show ((chat.messages.map fun msg =>
    if msg.id == mid then { msg with isPinned := !msg.isPinned } else msg).map
      Message.id) = _
  rw [List.map_map]
  apply List.map_congr_left
  intro m _
  simp only [Function.comp_apply]
  by_cases h : (m.id == mid) = true <;> simp [h]

theorem toggled_id (mid : String) (m : Message) :
    ((if m.id == mid then { m with isPinned := !m.isPinned } else m) : Message).id
      = m.id := by
  by_cases h : (m.id == mid) = true <;> simp [h]

theorem togglePinChat_pinConsistent (chat : Chat) (mid : String) (now : Nat)
    (hc : pinConsistent chat) (hnd : (chat.messages.map Message.id).Nodup)
    (hmem : mid ∈ chat.messages.map Message.id) :
    pinConsistent (togglePinChat mid now chat) := by
  classical
  obtain ⟨hc1, hc2⟩ := hc
  obtain ⟨m0, hm0mem, hm0id⟩ : ∃ m, m ∈ chat.messages ∧ m.id = mid := by
    simpa [List.mem_map] using hmem
  have huniq : ∀ m ∈ chat.messages, m.id = mid → m = m0 :=
    fun m hm hmid => List.inj_on_of_nodup_map hnd hm hm0mem (by rw [hmid, hm0id])
  cases hfind : (chat.messages.map fun msg =>
      if msg.id == mid then { msg with isPinned := !msg.isPinned } else msg).find?
      (fun m => m.id == mid) with
  | none =>
    exfalso
    have hmem' : ((if m0.id == mid then { m0 with isPinned := !m0.isPinned }
        else m0) : Message) ∈ (chat.messages.map fun msg =>
      if msg.id == mid then { msg with isPinned := !msg.isPinned } else msg) :=
      List.mem_map_of_mem _ hm0mem
    have hnp := List.find?_eq_none.mp hfind _ hmem'
    apply hnp
    rw [show ((if m0.id == mid then { m0 with isPinned := !m0.isPinned }
        else m0) : Message).id = m0.id from toggled_id mid m0]
    simp [hm0id]
  | some m1 =>
    have hm1mem := List.mem_of_find?_eq_some hfind
    have hm1p := List.find?_some hfind
    obtain ⟨mo, homem, hoeq⟩ := List.mem_map.mp hm1mem
    have hm1id : m1.id = mid := by simpa using hm1p
    have hoid : mo.id = mid := by rw [← toggled_id mid mo, hoeq]; exact hm1id
    have homo : mo = m0 := huniq mo homem hoid
    have hm1val : m1 = { m0 with isPinned := !m0.isPinned } := by
      rw [← hoeq, homo]
      simp [show (m0.id == mid) = true by simp [hm0id]]
    -- reduce the goal to the explicit record
    simp only [togglePinChat]
    rw [hfind]
    rw [hm1val]
    by_cases hp : m0.isPinned = true
    · simp only [hp, Bool.not_true, if_false]
      constructor
      · intro i hi
        obtain ⟨hip0, hine⟩ := List.mem_filter.mp hi
        have hine' : i ≠ mid := by simpa using hine
        obtain ⟨m, hm, hpin, hidm⟩ := mem_pinnedIds.mp (hc1 i hip0)
        have hgm : ((if m.id == mid then { m with isPinned := !m.isPinned }
            else m) : Message) = m := by
          rw [if_neg]
          simp [hidm, hine']
        apply mem_pinnedIds.mpr
        exact ⟨m, hgm ▸ List.mem_map_of_mem _ hm, hpin, hidm⟩
      · intro i hi
        obtain ⟨m1', hm1', hpin', hid'⟩ := mem_pinnedIds.mp hi
        obtain ⟨m, hm, hgm⟩ := List.mem_map.mp hm1'
        by_cases hmm : m.id = mid
        · exfalso
          rw [huniq m hm hmm] at hgm
          rw [← hgm] at hpin'
          simp [hm0id, hp] at hpin'
        · have hgm' : m1' = m := by
            rw [← hgm, if_neg (by simpa using hmm)]
          apply List.mem_filter.mpr
          constructor
          · apply hc2
            apply mem_pinnedIds.mpr
            exact ⟨m, hm, by rw [← hgm'] ; exact hpin', by rw [← hgm'] ; exact hid'⟩
          · have : i ≠ mid := by
              rw [← hid', hgm']
              exact hmm
            simpa using this
    · have hp' : m0.isPinned = false := by simpa using hp
      simp only [hp', Bool.not_false, if_true]
      have hnotin : mid ∉ chat.pinnedMessageIds.getD [] := by
        intro hin
        obtain ⟨m, hm, hpin, hidm⟩ := mem_pinnedIds.mp (hc1 mid hin)
        rw [huniq m hm hidm] at hpin
        rw [hp'] at hpin
        cases hpin
      have hcont : ((chat.pinnedMessageIds.getD []).contains mid) = false := by
        simpa using hnotin
      rw [hcont]
      simp only [Bool.false_eq_true, if_false]
      constructor
      · intro i hi
        rcases List.mem_append.mp hi with hip0 | hione
        · obtain ⟨m, hm, hpin, hidm⟩ := mem_pinnedIds.mp (hc1 i hip0)
          have hine' : i ≠ mid := by
            intro he
            rw [huniq m hm (by rw [hidm, he])] at hpin
            rw [hp'] at hpin
            cases hpin
          have hgm : ((if m.id == mid then { m with isPinned := !m.isPinned }
              else m) : Message) = m := by
            rw [if_neg]
            simp [hidm, hine']
          apply mem_pinnedIds.mpr
          exact ⟨m, hgm ▸ List.mem_map_of_mem _ hm, hpin, hidm⟩
        · have hieq : i = mid := by simpa using hione
          apply mem_pinnedIds.mpr
          refine ⟨{ m0 with isPinned := !m0.isPinned },
            List.mem_map.mpr ⟨m0, hm0mem, by simp [hm0id]⟩, by simp [hp'], ?_⟩
          rw [hieq]
          exact hm0id
      · intro i hi
        obtain ⟨m1', hm1', hpin', hid'⟩ := mem_pinnedIds.mp hi
        obtain ⟨m, hm, hgm⟩ := List.mem_map.mp hm1'
        by_cases hmm : m.id = mid
        · apply List.mem_append.mpr
          right
          have : i = mid := by
            rw [← hid', ← hgm, toggled_id, hmm]
          simp [this]
        · have hgm' : m1' = m := by
            rw [← hgm, if_neg (by simpa using hmm)]
          apply List.mem_append.mpr
          left
          apply hc2
          apply mem_pinnedIds.mpr
          exact ⟨m, hm, by rw [← hgm'] ; exact hpin', by rw [← hgm'] ; exact hid'⟩


/-- Claim C1 counterexample: with two messages sharing one id (possible
since `generateId` performs no uniqueness check), a consistent chat
becomes inconsistent after a single `togglePinMessage` call: the toggle
flips both duplicates, but the pin list is updated from the first
match only. -/
theorem claim_C1_counterexample :
    pinConsistent (⟨"c", "t",
      [⟨"x", "a", "user", 0, true⟩, ⟨"x", "b", "user", 0, false⟩],
      "smart", 0, 0, none, false, some ["x"]⟩ : Chat) ∧
    "x" ∈ ((⟨"c", "t",
      [⟨"x", "a", "user", 0, true⟩, ⟨"x", "b", "user", 0, false⟩],
      "smart", 0, 0, none, false, some ["x"]⟩ : Chat)).messages.map Message.id ∧
    ∃ c ∈ togglePinMessage "c" "x" 1
      [⟨"c", "t", [⟨"x", "a", "user", 0, true⟩, ⟨"x", "b", "user", 0, false⟩],
        "smart", 0, 0, none, false, some ["x"]⟩], ¬ pinConsistent c := by
  refine ⟨by decide, by decide, by decide⟩

/-- Claim C1 amended: for every chat whose state is consistent and
whose message ids are pairwise distinct, after any sequence of
`togglePinMessage` calls targeting messages of that chat, the chat's
`pinnedMessageIds` still equals exactly the set of ids of its messages
whose `isPinned` flag is true (every prefix of a call sequence is
itself a call sequence, so the invariant holds after each call). -/
theorem claim_C1_amended (chatId : String)
    (calls : List (String × Nat)) (chats : List Chat)
    (hinit : ∀ c ∈ chats, c.id = chatId →
      pinConsistent c ∧ (c.messages.map Message.id).Nodup ∧
        ∀ q ∈ calls, q.1 ∈ c.messages.map Message.id) :
    ∀ c ∈ calls.foldl (fun cs q => togglePinMessage chatId q.1 q.2 cs) chats,
      c.id = chatId → pinConsistent c := by
  induction calls generalizing chats with
  | nil =>
    intro c hc hid
    exact (hinit c hc hid).1
  | cons q rest ih =>
    intro c hc hid
    rw [List.foldl_cons] at hc
    refine ih (togglePinMessage chatId q.1 q.2 chats) ?_ c hc hid
    intro c' hc' hid'
    unfold togglePinMessage at hc'
    obtain ⟨c0, hc0, hc0eq⟩ := List.mem_map.mp hc'
    by_cases h : (c0.id == chatId) = true
    · have hc0id : c0.id = chatId := by simpa using h
      obtain ⟨hcons, hnd, hcalls⟩ := hinit c0 hc0 hc0id
      have hc'eq : c' = togglePinChat q.1 q.2 c0 := by
        rw [← hc0eq]
        simp [h]
      refine ⟨?_, ?_, ?_⟩
      · rw [hc'eq]
        exact togglePinChat_pinConsistent c0 q.1 q.2 hcons hnd
          (hcalls q (List.mem_cons_self q rest))
      · rw [hc'eq, togglePinChat_ids]
        exact hnd
      · intro p hp
        rw [hc'eq, togglePinChat_ids]
        exact hcalls p (List.mem_cons_of_mem q hp)
    · exfalso
      apply h
      have hc'eq : c' = c0 := by
        rw [← hc0eq]
        simp [h]
      rw [← hc'eq, hid']
      simp

theorem claim_C1_witness :
    pinConsistent (⟨"c", "t", [⟨"m1", "a", "user", 0, true⟩], "smart", 0, 1,
      none, false, some ["m1"]⟩ : Chat) :=
  claim_C1_amended "c" [("m1", 1)]
    [⟨"c", "t", [⟨"m1", "a", "user", 0, false⟩], "smart", 0, 0, none, false,
      some []⟩]
    (by decide)
    ⟨"c", "t", [⟨"m1", "a", "user", 0, true⟩], "smart", 0, 1, none, false,
      some ["m1"]⟩
    (by decide) rfl

/-- Claim C2 counterexample: the folder cleanup of `deleteChat` runs
only when the deleted chat's own `folderId` is truthy.  Here the chat's
id appears in a folder's `chatIds` while the chat's `folderId` is
unset, so after deletion the chat record and its messages are gone from
the store but the folder still lists the deleted id. -/
theorem claim_C2_counterexample :
    (∀ c ∈ (Store.deleteChat "c1" "n1" 1
        ⟨[⟨"c1", "t", [], "smart", 0, 0, none, false, none⟩],
         [⟨"f1", "F", 0, 0, ["c1"]⟩], some "z",
         ⟨[⟨"c1", "t", [], "smart", 0, 0, none, false, none⟩],
          [⟨"m9", "c1", "hi", "user", 0, false⟩],
          [⟨"f1", "F", 0, 0, ["c1"]⟩]⟩⟩).db.chats, c.id ≠ "c1") ∧
    (∃ f ∈ (Store.deleteChat "c1" "n1" 1
        ⟨[⟨"c1", "t", [], "smart", 0, 0, none, false, none⟩],
         [⟨"f1", "F", 0, 0, ["c1"]⟩], some "z",
         ⟨[⟨"c1", "t", [], "smart", 0, 0, none, false, none⟩],
          [⟨"m9", "c1", "hi", "user", 0, false⟩],
          [⟨"f1", "F", 0, 0, ["c1"]⟩]⟩⟩).folders, "c1" ∈ f.chatIds) := by
  refine ⟨by decide, by decide⟩

/-- Claim C2 amended: for a chat present in the store whose `folderId`
is set to a (non-empty) folder reference — as the folder-membership
invariant guarantees whenever the chat's id appears in a folder's
`chatIds` — and with the folder table write-through consistent,
`deleteChat` removes the chat record and every stored message of that
chat, and afterwards no in-memory folder nor any stored folder record
lists the deleted id. -/
theorem claim_C2_amended (chatId newId : String) (now : Nat) (s : StoreState)
    (chat : Chat)
    (hfind : s.chats.find? (fun c => c.id == chatId) = some chat)
    (htr : folderIdTruthy chat.folderId = true)
    (hsync : s.db.folders = s.folders) :
    (∀ c ∈ (Store.deleteChat chatId newId now s).db.chats, c.id ≠ chatId) ∧
    (∀ m ∈ (Store.deleteChat chatId newId now s).db.messages, m.chatId ≠ chatId) ∧
    (∀ f ∈ (Store.deleteChat chatId newId now s).folders, chatId ∉ f.chatIds) ∧
    (∀ f ∈ (Store.deleteChat chatId newId now s).db.folders, chatId ∉ f.chatIds) := by
  have hdb : (Store.deleteChat chatId newId now s).db =
      ChatDB.deleteChat chatId
        (Store.deleteChatFolderCleanup chatId now (some chat) s.folders
          (Store.deleteChatReselect chatId newId now s).2.2).2 := by
    unfold Store.deleteChat
    rw [hfind]
  have hfolders : (Store.deleteChat chatId newId now s).folders =
      (Store.deleteChatFolderCleanup chatId now (some chat) s.folders
        (Store.deleteChatReselect chatId newId now s).2.2).1 := by
    unfold Store.deleteChat
    rw [hfind]
  refine ⟨?_, ?_, ?_, ?_⟩
  · intro c hc
    rw [hdb] at hc
    have := (List.mem_filter.mp hc).2
    simpa using this
  · intro m hm
    rw [hdb] at hm
    have := (List.mem_filter.mp hm).2
    simpa using this
  · intro f hf
    rw [hfolders] at hf
    simp only [Store.deleteChatFolderCleanup] at hf
    rw [if_pos htr] at hf
    obtain ⟨f0, hf0, rfl⟩ := List.mem_map.mp hf
    by_cases hco : (f0.chatIds.contains chatId) = true
    · rw [if_pos hco]
      intro hmem
      have h2 := (List.mem_filter.mp hmem).2
      simp at h2
    · rw [if_neg hco]
      intro hmem
      exact hco (by simpa using hmem)
  · intro f hf
    rw [hdb] at hf
    have hf' : f ∈ (Store.deleteChatFolderCleanup chatId now (some chat)
        s.folders (Store.deleteChatReselect chatId newId now s).2.2).2.folders := hf
    simp only [Store.deleteChatFolderCleanup] at hf'
    rw [if_pos htr] at hf'
    refine foldl_saveFolder_clean chatId now
      (s.folders.filter (fun f => f.chatIds.contains chatId))
      (Store.deleteChatReselect chatId newId now s).2.2 ?_ f hf'
    intro g hg hmem
    rw [deleteChatReselect_db_folders, hsync] at hg
    have hgf : g ∈ s.folders.filter (fun f => f.chatIds.contains chatId) :=
      List.mem_filter.mpr ⟨hg, by simpa using hmem⟩
    exact List.mem_map_of_mem Folder.id hgf

theorem claim_C2_witness :
    "c1" ∉ (Folder.mk "f1" "F" 0 1 []).chatIds :=
  (claim_C2_amended "c1" "n1" 1
    ⟨[⟨"c1", "t", [], "smart", 0, 0, some "f1", false, none⟩],
     [⟨"f1", "F", 0, 0, ["c1"]⟩], some "c1",
     ⟨[⟨"c1", "t", [], "smart", 0, 0, some "f1", false, none⟩],
      [⟨"m9", "c1", "hi", "user", 0, false⟩],
      [⟨"f1", "F", 0, 0, ["c1"]⟩]⟩⟩
    ⟨"c1", "t", [], "smart", 0, 0, some "f1", false, none⟩
    (by decide) (by decide) (by decide)).2.2.1
    (Folder.mk "f1" "F" 0 1 []) (by decide)

theorem claim_C7_witness :
    (Chat.mk "c1" "Hello world, this is a long me..."
      [⟨"m1", "Hello world, this is a long message", "user", 1, false⟩]
      "smart" 0 1 none false none).title =
      "Hello world, this is a long me..." :=
  (claim_C7 ⟨"c1", "New Chat", [], "smart", 0, 0, none, false, none⟩ "m1" 1
    rfl rfl (by decide)).1 _ (by decide)

/-- Claim C8 counterexample: on an empty query, `searchChats` returns
the in-memory chat list unchanged, which need not be ordered favorites
first: here a non-favorite chat precedes a favorite one in the result,
so the claimed ordering fails. -/
theorem claim_C8_counterexample :
    searchChats ""
      [⟨"a", "alpha", [], "smart", 0, 5, none, false, none⟩,
       ⟨"b", "beta", [], "smart", 0, 3, none, true, none⟩] =
      [⟨"a", "alpha", [], "smart", 0, 5, none, false, none⟩,
       ⟨"b", "beta", [], "smart", 0, 3, none, true, none⟩] ∧
    ¬ specFavoriteRecencyOrder (searchChats ""
      [⟨"a", "alpha", [], "smart", 0, 5, none, false, none⟩,
       ⟨"b", "beta", [], "smart", 0, 3, none, true, none⟩]) := by
  constructor
  · rfl
  · decide

theorem hasPfx_iff (p l : List Char) : hasPfx p l = true ↔ p <+: l := by
  induction p generalizing l with
  | nil => simp [hasPfx]
  | cons a p ih =>
    cases l with
    | nil => simp [hasPfx]
    | cons b l => simp [hasPfx, List.cons_prefix_cons, ih]

theorem containsSeq_iff (sub l : List Char) :
    containsSeq sub l = true ↔ sub <:+: l := by
  induction l with
  | nil => simp [containsSeq, List.isEmpty_iff]
  | cons c cs ih => simp [containsSeq, hasPfx_iff, ih, List.infix_cons_iff]

/-- Claim C8 amended: an empty or whitespace-only query returns the
chat list unchanged, in its existing order (the favorite-first,
updatedAt-descending presentation is applied by the sidebar component,
not by `searchChats`); a non-empty query returns exactly the sublist,
in input order, of chats whose title or some message content contains
the query as a case-insensitive substring. -/
theorem claim_C8_amended (query : String) (chats : List Chat) :
    (jsTrimStr query = "" → searchChats query chats = chats) ∧
    (jsTrimStr query ≠ "" →
      (searchChats query chats).Sublist chats ∧
      ∀ c, c ∈ searchChats query chats ↔
        c ∈ chats ∧
          ((jsToLower query).toList <:+: (jsToLower c.title).toList ∨
            ∃ m ∈ c.messages,
              (jsToLower query).toList <:+: (jsToLower m.content).toList)) := by
  constructor
  · intro h
    simp [searchChats, h]
  · intro h
    constructor
    · simp only [searchChats, if_neg h]
      exact List.filter_sublist _
    · intro c
      simp only [searchChats, if_neg h]
      rw [List.mem_filter]
      simp [jsIncludes, containsSeq_iff]

theorem claim_C8_witness :
    searchChats "   " [⟨"a", "alpha", [], "smart", 0, 5, none, false, none⟩] =
      [⟨"a", "alpha", [], "smart", 0, 5, none, false, none⟩] ∧
    (⟨"a", "alpha", [], "smart", 0, 5, none, false, none⟩ ∈
        searchChats "LPh" [⟨"a", "alpha", [], "smart", 0, 5, none, false, none⟩] ↔
      (⟨"a", "alpha", [], "smart", 0, 5, none, false, none⟩ : Chat) ∈
          [(⟨"a", "alpha", [], "smart", 0, 5, none, false, none⟩ : Chat)] ∧
        ((jsToLower "LPh").toList <:+: (jsToLower "alpha").toList ∨
          ∃ m ∈ ([] : List Message),
            (jsToLower "LPh").toList <:+: (jsToLower m.content).toList)) :=
  ⟨(claim_C8_amended "   "
      [⟨"a", "alpha", [], "smart", 0, 5, none, false, none⟩]).1 rfl,
    ((claim_C8_amended "LPh"
      [⟨"a", "alpha", [], "smart", 0, 5, none, false, none⟩]).2 (by decide)).2
      ⟨"a", "alpha", [], "smart", 0, 5, none, false, none⟩⟩

/-- Claim C4: when the chat's model has no stored API key, the
generation routine appends exactly one new system-role message with
key guidance to the chat, persists it, leaves the rest of the state
untouched (in particular `isGenerating` stays false; it is never set to
true on this path), and returns normally. -/
theorem claim_C4 (chatId model : String) (messages : List Message)
    (sysMsgId asstId : String) (now : Nat) (outcome : StreamOutcome)
    (s : GenState) (chat : Chat)
    (hchat : chat ∈ s.chats) (hid : chat.id = chatId)
    (hgen : s.isGenerating = false) :
    ({ chat with
        messages := chat.messages ++
          [⟨sysMsgId, keyErrorContent model, "system", now, false⟩]
        updatedAt := now } ∈
      (generateAIResponse chatId model messages "" sysMsgId asstId now outcome s).1.chats) ∧
    ((⟨sysMsgId, chatId, keyErrorContent model, "system", now, false⟩ : DBMessage) ∈
      (generateAIResponse chatId model messages "" sysMsgId asstId now outcome s).1.db.messages) ∧
    (generateAIResponse chatId model messages "" sysMsgId asstId now outcome s).1.chats =
      appendMessageToChat chatId
        ⟨sysMsgId, keyErrorContent model, "system", now, false⟩ now s.chats ∧
    (generateAIResponse chatId model messages "" sysMsgId asstId now outcome s).1.isGenerating
      = false := by
  have hbranch :
      generateAIResponse chatId model messages "" sysMsgId asstId now outcome s =
      ({ s with
          chats := appendMessageToChat chatId
            ⟨sysMsgId, keyErrorContent model, "system", now, false⟩ now s.chats
          db := ChatDB.saveMessage
            (Message.withChatId
              ⟨sysMsgId, keyErrorContent model, "system", now, false⟩ chatId)
            now s.db }, 0) := by
    simp [generateAIResponse]
  rw [hbranch]
  refine ⟨?_, ?_, rfl, hgen⟩
  · have : ({ chat with
        messages := chat.messages ++
          [⟨sysMsgId, keyErrorContent model, "system", now, false⟩]
        updatedAt := now } : Chat) =
        (fun c => if c.id == chatId then
          { c with
            messages := c.messages ++
              [⟨sysMsgId, keyErrorContent model, "system", now, false⟩]
            updatedAt := now }
          else c) chat := by
      simp [hid]
    rw [this]
    exact List.mem_map_of_mem _ hchat
  · show _ ∈ putByKey DBMessage.id _ s.db.messages
    unfold putByKey
    exact List.mem_append_right _ (List.mem_singleton.mpr rfl)

theorem claim_C4_witness :
    ((⟨"sys", "c1", keyErrorContent "gpt-4o", "system", 3, false⟩ : DBMessage) ∈
      (generateAIResponse "c1" "gpt-4o" [⟨"m1", "hi", "user", 0, false⟩]
        "" "sys" "asst" 3 (.success [])
        ⟨[⟨"c1", "T", [⟨"m1", "hi", "user", 0, false⟩], "gpt-4o",
            0, 0, none, false, none⟩], ⟨[], [], []⟩, false, false⟩).1.db.messages) :=
  (claim_C4 "c1" "gpt-4o" [⟨"m1", "hi", "user", 0, false⟩] "sys" "asst" 3
    (.success [])
    ⟨[⟨"c1", "T", [⟨"m1", "hi", "user", 0, false⟩], "gpt-4o",
        0, 0, none, false, none⟩], ⟨[], [], []⟩, false, false⟩
    ⟨"c1", "T", [⟨"m1", "hi", "user", 0, false⟩], "gpt-4o",
      0, 0, none, false, none⟩
    (by decide) rfl rfl).2.1

theorem jsonEscapeChar_plain (c : Char) (h : c ≠ '"' ∧ c ≠ '\\' ∧ c ≠ '\n' ∧
    c ≠ '\r' ∧ c ≠ '\t') : jsonEscapeChar c = [c] := by
  obtain ⟨h1, h2, h3, h4, h5⟩ := h
  simp [jsonEscapeChar, h1, h2, h3, h4, h5]

theorem jsonEscape_plain (v : String) (hv : PlainVal v) : jsonEscape v = v := by
  show String.mk ((v.toList.map jsonEscapeChar).flatten) = v
  have : v.toList.map jsonEscapeChar = v.toList.map (fun c => [c]) :=
    List.map_congr_left fun c hc => jsonEscapeChar_plain c (hv c hc)
  rw [this]
  have : (v.toList.map (fun c => [c])).flatten = v.toList := by
    induction v.toList with
    | nil => rfl
    | cons c cs ih => simp [ih]
  rw [this]
  rfl

theorem dropPfx_append (p l : List Char) : dropPfx p (p ++ l) = some l := by
  induction p with
  | nil => rfl
  | cons a p ih => simp [dropPfx, ih]

theorem parseJsonStr_plain (l : List Char)
    (hl : ∀ c ∈ l, c ≠ '"' ∧ c ≠ '\\' ∧ c ≠ '\n' ∧ c ≠ '\r' ∧ c ≠ '\t')
    (rest : List Char) :
    parseJsonStr (l ++ '"' :: rest) = some (l, rest) := by
  induction l with
  | nil => rfl
  | cons c cs ih =>
    obtain ⟨h1, h2, _, _, _⟩ := hl c (List.mem_cons_self c cs)
    have ihr := ih fun x hx => hl x (List.mem_cons_of_mem c hx)
    simp [parseJsonStr, h1, h2, ihr]

theorem encodeEvent_text_toList (v : String) (hv : PlainVal v) :
    (encodeEvent (.text v)).toList =
      "\x7b\"type\":\"text\",\"value\":\"".toList ++
        (v.toList ++ '"' :: ['\x7d']) := by
  show (("\x7b\"type\":\"text\",\"value\":\"" ++ jsonEscape v ++ "\"\x7d").data) = _
  rw [jsonEscape_plain v hv, String.data_append, String.data_append]
  simp

theorem parseEventJson_text (v : String) (hv : PlainVal v) :
    parseEventJson ((encodeEvent (.text v)).toList) = some (.text v) := by
  rw [encodeEvent_text_toList v hv]
  unfold parseEventJson
  simp only [dropPfx_append]
  have hp : parseJsonStr (v.toList ++ '"' :: ['\x7d']) = some (v.toList, ['\x7d']) :=
    parseJsonStr_plain v.toList hv ['\x7d']
  simp only [hp]
  rfl

theorem splitNl_single_line (l : List Char) (h : '\n' ∉ l) :
    splitNl (l ++ ['\n', '\n']) = [l, [], []] := by
  induction l with
  | nil => rfl
  | cons c cs ih =>
    have hc : c ≠ '\n' := fun hn => h (hn ▸ List.mem_cons_self c cs)
    have ihr : splitNl (cs.append ['\n', '\n']) = [cs, [], []] :=
      ih fun hm => h (List.mem_cons_of_mem c hm)
    simp only [List.cons_append, splitNl, if_neg hc, ihr]

theorem dropWhile_eq_self_of_head? (l : List Char)
    (h : ∀ a ∈ l.head?, a.isWhitespace = false) :
    l.dropWhile Char.isWhitespace = l := by
  cases l with
  | nil => rfl
  | cons a t =>
    have := h a rfl
    simp [List.dropWhile_cons, this]

theorem jsTrim_eq_self_of (l : List Char)
    (h1 : ∀ a ∈ l.head?, a.isWhitespace = false)
    (h2 : ∀ a ∈ l.getLast?, a.isWhitespace = false) :
    jsTrim l = l := by
  have d1 : l.dropWhile Char.isWhitespace = l := dropWhile_eq_self_of_head? l h1
  have d2 : l.reverse.dropWhile Char.isWhitespace = l.reverse := by
    apply dropWhile_eq_self_of_head?
    rw [List.head?_reverse]
    exact h2
  simp [jsTrim, d1, d2]

theorem jsTrim_cons_space (l : List Char) : jsTrim (' ' :: l) = jsTrim l := by
  simp [jsTrim, List.dropWhile_cons]

theorem encodeEvent_text_head? (v : String) (hv : PlainVal v) :
    (encodeEvent (.text v)).toList.head? = some '\x7b' := by
  rw [encodeEvent_text_toList v hv, List.head?_append]
  rfl

theorem encodeEvent_text_getLast? (v : String) (hv : PlainVal v) :
    (encodeEvent (.text v)).toList.getLast? = some '\x7d' := by
  rw [encodeEvent_text_toList v hv]
  rw [show "\x7b\"type\":\"text\",\"value\":\"".toList ++
      (v.toList ++ '"' :: ['\x7d']) =
      ("\x7b\"type\":\"text\",\"value\":\"".toList ++
        (v.toList ++ ['"'])) ++ ['\x7d'] by simp]
  exact List.getLast?_concat _

theorem encodeEvent_text_no_nl (v : String) (hv : PlainVal v) :
    '\n' ∉ (encodeEvent (.text v)).toList := by
  rw [encodeEvent_text_toList v hv]
  intro hmem
  rcases List.mem_append.mp hmem with h | h
  · revert h; decide
  · rcases List.mem_append.mp h with h | h
    · exact ((hv '\n' h).2.2.1) rfl
    · revert h; decide

theorem ne_done_of_head? (content : List Char)
    (h : content.head? = some '\x7b') : content ≠ "[DONE]".toList := by
  intro he
  rw [he] at h
  cases h

theorem processChunk_text (cid : String) (am : Message) (now : Nat)
    (v : String) (hv : PlainVal v) (t0 : String) (fl0 : Nat)
    (chats0 : List Chat) (db0 : ChatDB) :
    processChunk cid am now (eventChunk (.text v)) ⟨t0, fl0, chats0, db0⟩ =
      (if ((t0 ++ v).length % 100 = 0) then
        ⟨t0 ++ v, fl0 + 1, setMsgContent cid am.id (t0 ++ v) now chats0,
          ChatDB.saveMessage
            ⟨am.id, cid, t0 ++ v, am.role, am.createdAt, am.isPinned⟩ now db0⟩
      else
        ⟨t0 ++ v, fl0, setMsgContent cid am.id (t0 ++ v) now chats0, db0⟩) := by
  have hline : ("data: " ++ encodeEvent (.text v)).toList =
      "data: ".toList ++ (encodeEvent (.text v)).toList := String.data_append _ _
  have hnonl : '\n' ∉ ("data: " ++ encodeEvent (.text v)).toList := by
    rw [hline]
    intro hmem
    rcases List.mem_append.mp hmem with h | h
    · revert h; decide
    · exact encodeEvent_text_no_nl v hv h
  have hsplit : splitNl ((eventChunk (.text v)).toList) =
      [("data: " ++ encodeEvent (.text v)).toList, [], []] := by
    show splitNl ((("data: " ++ encodeEvent (.text v)) ++ "\n\n").data) = _
    rw [String.data_append]
    exact splitNl_single_line _ hnonl
  have hlineform : ("data: " ++ encodeEvent (.text v)).toList =
      'd' :: 'a' :: 't' :: 'a' :: ':' :: ' ' :: (encodeEvent (.text v)).toList := by
    rw [hline]
    rfl
  have hne : (!(jsTrim (("data: " ++ encodeEvent (.text v)).toList)).isEmpty) = true := by
    have htrim : jsTrim (("data: " ++ encodeEvent (.text v)).toList) =
        ("data: " ++ encodeEvent (.text v)).toList := by
      apply jsTrim_eq_self_of
      · rw [hlineform]
        intro a ha
        cases ha
        rfl
      · rw [hline, List.getLast?_append_of_ne_nil]
        · rw [encodeEvent_text_getLast? v hv]
          intro a ha
          cases ha
          rfl
        · rw [encodeEvent_text_toList v hv]
          simp
    rw [htrim, hlineform]
    rfl
  have hfiltered : ((splitNl ((eventChunk (.text v)).toList)).filter
      (fun l => !(jsTrim l).isEmpty)) =
      [("data: " ++ encodeEvent (.text v)).toList] := by
    rw [hsplit]
    simp only [List.filter, hne]
    rfl
  unfold processChunk
  rw [hfiltered]
  show processLine cid am now (("data: " ++ encodeEvent (.text v)).toList)
    ⟨t0, fl0, chats0, db0⟩ = _
  unfold processLine
  rw [hlineform]
  rw [if_pos (by simp [hasPfx])]
  rw [show ('d' :: 'a' :: 't' :: 'a' :: ':' :: ' ' ::
      (encodeEvent (.text v)).toList).drop 5 =
      ' ' :: (encodeEvent (.text v)).toList from rfl]
  rw [jsTrim_cons_space]
  rw [jsTrim_eq_self_of _
    (by rw [encodeEvent_text_head? v hv]; intro a ha; cases ha; rfl)
    (by rw [encodeEvent_text_getLast? v hv]; intro a ha; cases ha; rfl)]
  unfold processContent
  rw [if_neg (ne_done_of_head? _ (encodeEvent_text_head? v hv))]
  rw [parseEventJson_text v hv]
  rfl

theorem processChunk_done (cid : String) (am : Message) (now : Nat)
    (acc : StreamAcc) : processChunk cid am now doneChunk acc = acc := by
  have hfilter : (splitNl (doneChunk.toList)).filter
      (fun l => !(jsTrim l).isEmpty) = ["data: [DONE]".toList] := by
    decide
  unfold processChunk
  rw [hfilter]
  show processLine cid am now ("data: [DONE]".toList) acc = acc
  unfold processLine
  rw [if_pos (by decide)]
  rw [show jsTrim (("data: [DONE]".toList).drop 5) = "[DONE]".toList by decide]
  unfold processContent
  rw [if_pos rfl]

theorem str_append_empty (s : String) : s ++ "" = s := by
  simp

theorem runStream_responseText (cid : String) (am : Message) (now : Nat)
    (vs : List String) (hvs : ∀ v ∈ vs, PlainVal v) :
    ∀ (t0 : String) (fl0 : Nat) (chats0 : List Chat) (db0 : ChatDB),
      (runStream cid am now (vs.map fun v => eventChunk (.text v))
        ⟨t0, fl0, chats0, db0⟩).responseText = t0 ++ concatAll vs := by
  induction vs with
  | nil =>
    intro t0 fl0 chats0 db0
    show t0 = t0 ++ concatAll []
    rw [show concatAll [] = "" from rfl, str_append_empty]
  | cons v vs ih =>
    intro t0 fl0 chats0 db0
    have hv := hvs v (List.mem_cons_self v vs)
    have ihr := ih fun x hx => hvs x (List.mem_cons_of_mem v hx)
    show (runStream cid am now (vs.map fun v => eventChunk (.text v))
      (processChunk cid am now (eventChunk (.text v)) ⟨t0, fl0, chats0, db0⟩)).responseText = _
    rw [processChunk_text cid am now v hv t0 fl0 chats0 db0]
    by_cases h100 : ((t0 ++ v).length % 100 = 0)
    · rw [if_pos h100, ihr, String.append_assoc]
      rfl
    · rw [if_neg h100, ihr, String.append_assoc]
      rfl

theorem setMsgContent_append (cid : String) (am : Message) (now : Nat)
    (chats0 : List Chat) (t0 t : String)
    (hfresh : ∀ c ∈ chats0, c.id = cid → ∀ m ∈ c.messages, m.id ≠ am.id) :
    setMsgContent cid am.id t now
      (appendMessageToChat cid { am with content := t0 } now chats0) =
      appendMessageToChat cid { am with content := t } now chats0 := by
  unfold setMsgContent appendMessageToChat
  rw [List.map_map]
  apply List.map_congr_left
  intro c hc
  simp only [Function.comp_apply]
  by_cases h : (c.id == cid) = true
  · simp only [h, if_true]
    have hclean : ∀ ms : List Message, (∀ m ∈ ms, m.id ≠ am.id) →
        ms.map (fun msg =>
          if msg.id = am.id then { msg with content := t } else msg) = ms := by
      intro ms hms
      induction ms with
      | nil => rfl
      | cons m ms ih =>
        simp only [List.map_cons, if_neg (hms m (List.mem_cons_self m ms)),
          List.cons.injEq, true_and]
        exact ih fun x hx => hms x (List.mem_cons_of_mem m hx)
    simp only [List.map_append, beq_iff_eq]
    rw [hclean c.messages (hfresh c hc (by simpa using h))]
    simp
  · simp [h]

theorem runStream_chats (cid : String) (am : Message) (now : Nat)
    (chats0 : List Chat)
    (hfresh : ∀ c ∈ chats0, c.id = cid → ∀ m ∈ c.messages, m.id ≠ am.id)
    (vs : List String) (hvs : ∀ v ∈ vs, PlainVal v) :
    ∀ (t0 : String) (fl0 : Nat) (db0 : ChatDB),
      (runStream cid am now (vs.map fun v => eventChunk (.text v))
        ⟨t0, fl0, appendMessageToChat cid { am with content := t0 } now chats0,
          db0⟩).chats =
        appendMessageToChat cid { am with content := t0 ++ concatAll vs } now chats0 := by
  induction vs with
  | nil =>
    intro t0 fl0 db0
    show appendMessageToChat cid { am with content := t0 } now chats0 = _
    rw [show concatAll [] = "" from rfl, str_append_empty]
  | cons v vs ih =>
    intro t0 fl0 db0
    have hv := hvs v (List.mem_cons_self v vs)
    have ihr := ih fun x hx => hvs x (List.mem_cons_of_mem v hx)
    have hset := setMsgContent_append cid am now chats0 t0 (t0 ++ v) hfresh
    show (runStream cid am now (vs.map fun v => eventChunk (.text v))
      (processChunk cid am now (eventChunk (.text v))
        ⟨t0, fl0, appendMessageToChat cid { am with content := t0 } now chats0,
          db0⟩)).chats = _
    rw [processChunk_text cid am now v hv t0 fl0 _ db0]
    by_cases h100 : ((t0 ++ v).length % 100 = 0)
    · rw [if_pos h100, hset, ihr, String.append_assoc]
      rfl
    · rw [if_neg h100, hset, ihr, String.append_assoc]
      rfl

/-- Claim C5: when a generation is started (key present, non-empty
payload) and then cancelled before stream completion, no error-role
message is added to the chat — the only change to the chat list is the
assistant message holding exactly the concatenation of the tokens
received before cancellation — and the controller returns to the idle
state: `isGenerating` is false and no abort controller is pending. -/
theorem claim_C5 (chatId model : String) (messages : List Message)
    (apiKey sysMsgId asstId : String) (now : Nat) (vs : List String)
    (s : GenState)
    (hkey : apiKey ≠ "")
    (hmsgs : (messages.filter fun msg =>
      msg.role != "assistant" || jsTrimStr msg.content != "") ≠ [])
    (hplain : ∀ v ∈ vs, PlainVal v)
    (hfresh : ∀ c ∈ s.chats, c.id = chatId → ∀ m ∈ c.messages, m.id ≠ asstId) :
    (generateAIResponse chatId model messages apiKey sysMsgId asstId now
        (.abortedAfter (vs.map fun v => eventChunk (.text v))) s).1.chats =
      appendMessageToChat chatId
        ⟨asstId, concatAll vs, "assistant", now, false⟩ now s.chats ∧
    (generateAIResponse chatId model messages apiKey sysMsgId asstId now
        (.abortedAfter (vs.map fun v => eventChunk (.text v))) s).1.isGenerating
      = false ∧
    (generateAIResponse chatId model messages apiKey sysMsgId asstId now
        (.abortedAfter (vs.map fun v => eventChunk (.text v))) s).1.hasAbortController
      = false := by
  have hlen : ¬ (((messages.filter fun msg =>
      msg.role != "assistant" || jsTrimStr msg.content != "").map
        fun msg => (msg.role, msg.content)).length = 0) := by
    rw [List.length_map]
    intro h0
    exact hmsgs (List.length_eq_zero.mp h0)
  simp only [generateAIResponse, if_neg hkey, if_neg hlen]
  refine ⟨?_, by trivial, by trivial⟩
  exact runStream_chats chatId ⟨asstId, "", "assistant", now, false⟩ now s.chats
    hfresh vs hplain "" 0 _

theorem claim_C5_witness :
    (generateAIResponse "c1" "gpt-4o" [⟨"m1", "hi", "user", 0, false⟩]
        "sk" "sys" "asst" 2
        (.abortedAfter ((["Hel", "lo"] : List String).map fun v =>
          eventChunk (.text v)))
        ⟨[⟨"c1", "T", [⟨"m1", "hi", "user", 0, false⟩], "gpt-4o",
            0, 0, none, false, none⟩], ⟨[], [], []⟩, false, false⟩).1.chats =
      appendMessageToChat "c1" ⟨"asst", concatAll ["Hel", "lo"], "assistant", 2, false⟩ 2
        [⟨"c1", "T", [⟨"m1", "hi", "user", 0, false⟩], "gpt-4o",
          0, 0, none, false, none⟩] :=
  (claim_C5 "c1" "gpt-4o" [⟨"m1", "hi", "user", 0, false⟩] "sk" "sys" "asst" 2
    ["Hel", "lo"]
    ⟨[⟨"c1", "T", [⟨"m1", "hi", "user", 0, false⟩], "gpt-4o",
        0, 0, none, false, none⟩], ⟨[], [], []⟩, false, false⟩
    (by decide) (by decide) (by decide) (by decide)).1

/-- Claim C6 counterexample: the stream consumer splits each read chunk
independently and does not buffer partial lines, so the same byte
stream delivered with chunk boundaries that do not align with event
boundaries produces a different final content: delivered aligned, the
single text event "4" yields "4"; delivered split in the middle of the
event line, it yields "" (the event is dropped). -/
theorem claim_C6_counterexample :
    String.join [eventChunk (.text "4"), doneChunk] =
      String.join ["data: \x7b\"type\":\"te", "xt\",\"value\":\"4\"\x7d\n\n",
        doneChunk] ∧
    (runStream "c1" ⟨"a1", "", "assistant", 1, false⟩ 1
      [eventChunk (.text "4"), doneChunk]
      ⟨"", 0, [], ⟨[], [], []⟩⟩).responseText = "4" ∧
    (runStream "c1" ⟨"a1", "", "assistant", 1, false⟩ 1
      ["data: \x7b\"type\":\"te", "xt\",\"value\":\"4\"\x7d\n\n", doneChunk]
      ⟨"", 0, [], ⟨[], [], []⟩⟩).responseText = "" := by
  refine ⟨by decide, by decide, by decide⟩

/-- Claim C6 amended: when every event line arrives within a single
read chunk, the consumer reconstructs the in-order concatenation of the
text-event values (events whose framing line is split across chunk
boundaries are dropped, since each chunk is split independently and
partial lines are not buffered); lines not starting with `data:` and
unparsable payloads are skipped without aborting; and an immediate
end-of-stream with no events yields an empty successful response with
just the final flush (no error message). -/
theorem claim_C6_amended :
    (∀ (cid : String) (am : Message) (now : Nat) (chats0 : List Chat)
        (db0 : ChatDB) (vs : List String), (∀ v ∈ vs, PlainVal v) →
      (runStream cid am now
        ((vs.map fun v => eventChunk (.text v)) ++ [doneChunk])
        ⟨"", 0, chats0, db0⟩).responseText = concatAll vs) ∧
    (∀ (cid : String) (am : Message) (now : Nat) (line : List Char)
        (acc : StreamAcc), hasPfx ("data:".toList) line = false →
      processLine cid am now line acc = acc) ∧
    (∀ (cid : String) (am : Message) (now : Nat) (content : List Char)
        (acc : StreamAcc), content ≠ "[DONE]".toList →
      parseEventJson content = none →
      processContent cid am now content acc = acc) ∧
    (∀ (chatId model : String) (messages : List Message)
        (apiKey sysMsgId asstId : String) (now : Nat) (s : GenState),
      apiKey ≠ "" →
      (messages.filter fun msg =>
        msg.role != "assistant" || jsTrimStr msg.content != "") ≠ [] →
      (generateAIResponse chatId model messages apiKey sysMsgId asstId now
          (.success []) s).1.chats =
        appendMessageToChat chatId ⟨asstId, "", "assistant", now, false⟩ now
          s.chats ∧
      (generateAIResponse chatId model messages apiKey sysMsgId asstId now
          (.success []) s).2 = 1) := by
  refine ⟨?_, ?_, ?_, ?_⟩
  · intro cid am now chats0 db0 vs hvs
    show ((((vs.map fun v => eventChunk (.text v)) ++ [doneChunk]).foldl
      (fun a ch => processChunk cid am now ch a)
      ⟨"", 0, chats0, db0⟩)).responseText = concatAll vs
    rw [List.foldl_append]
    show (processChunk cid am now doneChunk _).responseText = concatAll vs
    rw [processChunk_done]
    exact runStream_responseText cid am now vs hvs "" 0 chats0 db0
  · intro cid am now line acc h
    have h' : hasPfx ['d', 'a', 't', 'a', ':'] line = false := h
    simp [processLine, h']
  · intro cid am now content acc h1 h2
    simp [processContent, h1, h2]
  · intro chatId model messages apiKey sysMsgId asstId now s hkey hmsgs
    have hlen : ¬ (((messages.filter fun msg =>
        msg.role != "assistant" || jsTrimStr msg.content != "").map
          fun msg => (msg.role, msg.content)).length = 0) := by
      rw [List.length_map]
      intro h0
      exact hmsgs (List.length_eq_zero.mp h0)
    simp only [generateAIResponse, if_neg hkey, if_neg hlen]
    exact ⟨rfl, rfl⟩

theorem claim_C6_witness :
    (runStream "c1" ⟨"a1", "", "assistant", 1, false⟩ 1
      (((["4", " is"] : List String).map fun v => eventChunk (.text v)) ++
        [doneChunk])
      ⟨"", 0, [], ⟨[], [], []⟩⟩).responseText = concatAll ["4", " is"] :=
  claim_C6_amended.1 "c1" ⟨"a1", "", "assistant", 1, false⟩ 1 [] ⟨[], [], []⟩
    ["4", " is"] (by decide)

/-- Claim C3: with one user message "2+2?" and a provider stream
delivering exactly the text chunks "4", " is", " the answer." and then
the completion sentinel, the assistant message's final content is
"4 is the answer.", exactly one persistence flush of that message
occurs (the end-of-stream flush; no mid-stream flush fires for this
input since the bounded-interval condition never triggers), and
`isGenerating` is false afterwards. -/
theorem claim_C3 :
    ((generateAIResponse "c1" "gpt-4o" [⟨"m1", "2+2?", "user", 0, false⟩]
        "sk-test" "sys" "asst" 1
        (.success [eventChunk (.text "4"), eventChunk (.text " is"),
          eventChunk (.text " the answer."), doneChunk])
        ⟨[⟨"c1", "New Chat", [⟨"m1", "2+2?", "user", 0, false⟩], "gpt-4o",
            0, 0, none, false, none⟩], ⟨[], [], []⟩, false, false⟩).1.chats.map
      fun c => c.messages.map Message.content) = [["2+2?", "4 is the answer."]] ∧
    (generateAIResponse "c1" "gpt-4o" [⟨"m1", "2+2?", "user", 0, false⟩]
        "sk-test" "sys" "asst" 1
        (.success [eventChunk (.text "4"), eventChunk (.text " is"),
          eventChunk (.text " the answer."), doneChunk])
        ⟨[⟨"c1", "New Chat", [⟨"m1", "2+2?", "user", 0, false⟩], "gpt-4o",
            0, 0, none, false, none⟩], ⟨[], [], []⟩, false, false⟩).2 = 1 ∧
    (generateAIResponse "c1" "gpt-4o" [⟨"m1", "2+2?", "user", 0, false⟩]
        "sk-test" "sys" "asst" 1
        (.success [eventChunk (.text "4"), eventChunk (.text " is"),
          eventChunk (.text " the answer."), doneChunk])
        ⟨[⟨"c1", "New Chat", [⟨"m1", "2+2?", "user", 0, false⟩], "gpt-4o",
            0, 0, none, false, none⟩], ⟨[], [], []⟩, false, false⟩).1.isGenerating
      = false := by
  refine ⟨by decide, by decide, by decide⟩

end JustBYOK
